import Mathlib

/-
Verification of the audio-reactive waveform rendering and rhythm-extraction
pipeline of the Braless live-coding repository.

The embedding mirrors three source files:
  * services/rhythmParser.ts   (parseRhythmFromCode, getBeatIntensity, parseScopePattern)
  * services/audioAnalyser.ts  (getFrequencyData)
  * components/Visualizer.tsx  (beat-intensity smoothing, amplitude envelope,
                                the per-frame ribbon-geometry generator and the
                                SVG render guard)

JavaScript numbers are modelled as exact rationals extended with the three
non-finite values NaN, +Infinity and -Infinity (type JSNum below); arithmetic
on JSNum follows the IEEE rules JavaScript uses (NaN propagation, division by
zero producing signed infinities, 0/0 producing NaN, Math.min/Math.max
returning NaN when an argument is NaN).  The signed zero of IEEE is conflated
with zero; no code path under study distinguishes them.  Math.sin, Math.cos
and Math.PI are parameters of the geometry model (they are irrational; none of
the claims depends on their values beyond NaN-propagation, which the lifting
below captures: sin/cos of NaN or of an infinity is NaN).
-/

namespace Braless

/-- JavaScript number: an exact rational, or one of the IEEE non-finite
values NaN, +Infinity, -Infinity. -/
inductive JSNum where
  | num (q : ℚ)
  | nan
  | inf
  | ninf
deriving DecidableEq, Repr

namespace JSNum

/-- JavaScript unary minus. -/
def neg : JSNum → JSNum
  | num a => num (-a)
  | nan => nan
  | inf => ninf
  | ninf => inf

/-- JavaScript addition. -/
def add : JSNum → JSNum → JSNum
  | num a, num b => num (a + b)
  | nan, _ => nan
  | _, nan => nan
  | inf, inf => inf
  | inf, ninf => nan
  | ninf, inf => nan
  | ninf, ninf => ninf
  | inf, num _ => inf
  | num _, inf => inf
  | ninf, num _ => ninf
  | num _, ninf => ninf

/-- JavaScript subtraction. -/
def sub (a b : JSNum) : JSNum := add a (neg b)

/-- JavaScript multiplication. -/
def mul : JSNum → JSNum → JSNum
  | num a, num b => num (a * b)
  | nan, _ => nan
  | _, nan => nan
  | inf, inf => inf
  | inf, ninf => ninf
  | ninf, inf => ninf
  | ninf, ninf => inf
  | inf, num b => if 0 < b then inf else if b < 0 then ninf else nan
  | num a, inf => if 0 < a then inf else if a < 0 then ninf else nan
  | ninf, num b => if 0 < b then ninf else if b < 0 then inf else nan
  | num a, ninf => if 0 < a then ninf else if a < 0 then inf else nan

/-- JavaScript division.  Division of a nonzero finite number by zero gives a
signed infinity, 0/0 gives NaN (signed zero is conflated with zero). -/
def div : JSNum → JSNum → JSNum
  | num a, num b =>
      if b = 0 then (if 0 < a then inf else if a < 0 then ninf else nan)
      else num (a / b)
  | nan, _ => nan
  | _, nan => nan
  | inf, inf => nan
  | inf, ninf => nan
  | ninf, inf => nan
  | ninf, ninf => nan
  | inf, num b => if b < 0 then ninf else inf
  | ninf, num b => if b < 0 then inf else ninf
  | num _, inf => num 0
  | num _, ninf => num 0

/-- JavaScript Math.abs. -/
def abs : JSNum → JSNum
  | num a => num |a|
  | nan => nan
  | inf => inf
  | ninf => inf

/-- JavaScript strict less-than; false whenever an operand is NaN. -/
def lt : JSNum → JSNum → Bool
  | num a, num b => decide (a < b)
  | nan, _ => false
  | _, nan => false
  | inf, _ => false
  | ninf, ninf => false
  | ninf, _ => true
  | num _, inf => true
  | num _, ninf => false

/-- JavaScript Math.min of two arguments: NaN if either argument is NaN. -/
def min2 : JSNum → JSNum → JSNum
  | nan, _ => nan
  | _, nan => nan
  | a, b => if lt a b then a else b

/-- JavaScript Math.max of two arguments: NaN if either argument is NaN. -/
def max2 : JSNum → JSNum → JSNum
  | nan, _ => nan
  | _, nan => nan
  | a, b => if lt a b then b else a

/-- JavaScript variadic Math.min over a spread list; Math.min() is Infinity. -/
def minList : List JSNum → JSNum
  | [] => inf
  | x :: xs => xs.foldl min2 x

/-- JavaScript variadic Math.max over a spread list; Math.max() is -Infinity. -/
def maxList : List JSNum → JSNum
  | [] => ninf
  | x :: xs => xs.foldl max2 x

@[simp] theorem add_num_num (a b : ℚ) : add (num a) (num b) = num (a + b) := rfl

@[simp] theorem neg_num (a : ℚ) : neg (num a) = num (-a) := rfl

@[simp] theorem sub_num_num (a b : ℚ) : sub (num a) (num b) = num (a - b) := by
  simp [sub, add, neg]; ring

@[simp] theorem mul_num_num (a b : ℚ) : mul (num a) (num b) = num (a * b) := rfl

@[simp] theorem abs_num (a : ℚ) : abs (num a) = num |a| := rfl

theorem div_num_num (a b : ℚ) (hb : b ≠ 0) : div (num a) (num b) = num (a / b) := by
  simp [div, hb]

@[simp] theorem lt_num_num (a b : ℚ) : lt (num a) (num b) = decide (a < b) := rfl

@[simp] theorem min2_num_num (a b : ℚ) : min2 (num a) (num b) = num (min a b) := by
  by_cases h : a < b
  · simp [min2, lt, h, min_eq_left (le_of_lt h)]
  · simp [min2, lt, h, min_eq_right (le_of_not_lt h)]

@[simp] theorem max2_num_num (a b : ℚ) : max2 (num a) (num b) = num (max a b) := by
  by_cases h : a < b
  · simp [max2, lt, h, max_eq_right (le_of_lt h)]
  · simp [max2, lt, h, max_eq_left (le_of_not_lt h)]

@[simp] theorem mul_nan_left (a : JSNum) : mul nan a = nan := by
  cases a <;> rfl

@[simp] theorem mul_nan_right (a : JSNum) : mul a nan = nan := by
  cases a <;> rfl

@[simp] theorem add_nan_left (a : JSNum) : add nan a = nan := by
  cases a <;> rfl

@[simp] theorem add_nan_right (a : JSNum) : add a nan = nan := by
  cases a <;> rfl

@[simp] theorem sub_nan_left (a : JSNum) : sub nan a = nan := by
  cases a <;> rfl

@[simp] theorem sub_nan_right (a : JSNum) : sub a nan = nan := by
  cases a <;> simp [sub, neg]

@[simp] theorem div_zero_zero : div (num 0) (num 0) = nan := by
  simp [div]

/-- Fold of Math.min over a list of finite values is the finite minimum. -/
theorem foldl_min2_num (a : ℚ) (qs : List ℚ) :
    (qs.map num).foldl min2 (num a) = num (qs.foldl min a) := by
  induction qs generalizing a with
  | nil => rfl
  | cons q qs ih => simp [ih]

/-- Math.min spread over a nonempty list of finite values. -/
theorem minList_map_num (q : ℚ) (qs : List ℚ) :
    minList ((q :: qs).map num) = num (qs.foldl min q) := by
  simp [minList, foldl_min2_num]

/-- Fold of Math.max over a list of finite values is the finite maximum. -/
theorem foldl_max2_num (a : ℚ) (qs : List ℚ) :
    (qs.map num).foldl max2 (num a) = num (qs.foldl max a) := by
  induction qs generalizing a with
  | nil => rfl
  | cons q qs ih => simp [ih]

/-- Math.max spread over a nonempty list of finite values. -/
theorem maxList_map_num (q : ℚ) (qs : List ℚ) :
    maxList ((q :: qs).map num) = num (qs.foldl max q) := by
  simp [maxList, foldl_max2_num]

end JSNum

/-! String-scanning primitives.  The parser functions in rhythmParser.ts work
with JavaScript regular expressions; each regex used by the source is simple
enough to be realized as a deterministic left-to-right scanner, written here
over `List Char`.  Each scanner's doc comment names the regex it models. -/

/-- JavaScript \s whitespace (the characters relevant to source text). -/
def isWsCh (c : Char) : Bool :=
  c == ' ' || c == '\t' || c == '\n' || c == '\r' || c == '\x0b' || c == '\x0c'

/-- Decimal digit test. -/
def isDigitCh (c : Char) : Bool := c.isDigit

/-- Character class [\d.] . -/
def isNumCh (c : Char) : Bool := isDigitCh c || c == '.'

/-- Character class ["'] (double or single quote). -/
def isQuoteCh (c : Char) : Bool := c == '"' || c == Char.ofNat 39

/-- Does `p` occur as a prefix of `s`? -/
def lstartsWith : List Char → List Char → Bool
  | [], _ => true
  | _ :: _, [] => false
  | p :: ps, c :: cs => p == c && lstartsWith ps cs

/-- JavaScript String.includes: does `pat` occur as a contiguous substring? -/
def containsSub (pat : List Char) : List Char → Bool
  | [] => lstartsWith pat []
  | c :: cs => lstartsWith pat (c :: cs) || containsSub pat cs

/-- The prefix of `s` strictly before the first occurrence of `pat` (the
capture of a lazy ([\s\S]*?) group placed before `pat`); none if `pat` does
not occur. -/
def prefixBeforeFirst (pat : List Char) : List Char → Option (List Char)
  | [] => if lstartsWith pat [] then some [] else none
  | c :: cs =>
    if lstartsWith pat (c :: cs) then some []
    else (prefixBeforeFirst pat cs).map (fun pre => c :: pre)

/-- JavaScript String.indexOf on a pattern list. -/
def idxOfFirst (pat : List Char) : List Char → Option ℕ
  | [] => if lstartsWith pat [] then some 0 else none
  | c :: cs =>
    if lstartsWith pat (c :: cs) then some 0
    else (idxOfFirst pat cs).map (· + 1)

/-- JavaScript String.lastIndexOf; callers below only use it when the pattern
is known to occur (JavaScript would return -1 otherwise; here 0). -/
def lastIndexOfPat (pat s : List Char) : ℕ :=
  ((List.range (s.length + 1)).filter (fun i => lstartsWith pat (s.drop i))).foldl max 0

/-- JavaScript String.trim: strip leading and trailing whitespace. -/
def jsTrim (s : List Char) : List Char :=
  ((s.dropWhile isWsCh).reverse.dropWhile isWsCh).reverse

/-- Value of a list of decimal digit characters. -/
def natOfDigits (ds : List Char) : ℕ :=
  ds.foldl (fun acc c => acc * 10 + (c.toNat - 48)) 0

/-- JavaScript parseFloat: skip leading whitespace, optional sign, either
an Infinity literal or decimal digits with optional fractional part and
optional exponent; NaN when no digits are found. -/
def jsParseFloat (s : List Char) : JSNum :=
  let s1 := s.dropWhile isWsCh
  let sgn : ℚ := match s1 with
    | c :: _ => if c = '-' then -1 else 1
    | [] => 1
  let s2 : List Char := match s1 with
    | c :: rest => if c = '-' || c = '+' then rest else s1
    | [] => s1
  if lstartsWith "Infinity".data s2 then
    (if sgn = 1 then JSNum.inf else JSNum.ninf)
  else
    let d1 := s2.takeWhile isDigitCh
    let s3 := s2.drop d1.length
    let d2 : List Char := match s3 with
      | c :: rest => if c = '.' then rest.takeWhile isDigitCh else []
      | [] => []
    let s4 : List Char := match s3 with
      | c :: rest => if c = '.' then rest.drop (rest.takeWhile isDigitCh).length else s3
      | [] => s3
    if d1.isEmpty && d2.isEmpty then JSNum.nan
    else
      let mant : ℚ := (natOfDigits d1 : ℚ) + (natOfDigits d2 : ℚ) / (10 : ℚ) ^ d2.length
      let expn : ℤ := match s4 with
        | c :: rest =>
          if c = 'e' || c = 'E' then
            let er : ℤ × List Char := match rest with
              | d :: rr => if d = '-' then (-1, rr) else if d = '+' then (1, rr) else (1, rest)
              | [] => (1, rest)
            let ed := er.2.takeWhile isDigitCh
            if ed.isEmpty then 0 else er.1 * (natOfDigits ed : ℤ)
          else 0
        | [] => 0
      JSNum.num (sgn * mant * (10 : ℚ) ^ expn)

/-- Evaluation lemmas for the code points of digit characters, used when
normalizing parseFloat applications on concrete digit strings. -/
theorem toNat_c0 : ('0').toNat = 48 := rfl

theorem toNat_c1 : ('1').toNat = 49 := rfl

theorem toNat_c2 : ('2').toNat = 50 := rfl

theorem toNat_c3 : ('3').toNat = 51 := rfl

theorem toNat_c4 : ('4').toNat = 52 := rfl

theorem toNat_c5 : ('5').toNat = 53 := rfl

theorem toNat_c6 : ('6').toNat = 54 := rfl

theorem toNat_c7 : ('7').toNat = 55 := rfl

theorem toNat_c8 : ('8').toNat = 56 := rfl

theorem toNat_c9 : ('9').toNat = 57 := rfl

/-- JavaScript `x || 1` on a number: 0 and NaN are falsy and replaced by 1. -/
def jsOr1 : JSNum → JSNum
  | JSNum.num q => if q = 0 then JSNum.num 1 else JSNum.num q
  | JSNum.nan => JSNum.num 1
  | JSNum.inf => JSNum.inf
  | JSNum.ninf => JSNum.ninf

/-- Fuel-indexed worker for `wsTokens`; fuel bounds the characters consumed. -/
def wsTokensAux : ℕ → List Char → List (List Char)
  | 0, _ => []
  | _, [] => []
  | fuel + 1, c :: cs =>
    if isWsCh c then wsTokensAux fuel cs
    else (c :: cs.takeWhile (fun d => !isWsCh d)) ::
      wsTokensAux fuel (cs.dropWhile (fun d => !isWsCh d))

/-- JavaScript `str.split(/\s+/).filter(e => e.trim() !== '')`: the maximal
runs of non-whitespace characters, in order. -/
def wsTokens (s : List Char) : List (List Char) := wsTokensAux s.length s

/-- Fuel-indexed worker for `extractNumRuns`. -/
def extractNumRunsAux : ℕ → List Char → List (List Char)
  | 0, _ => []
  | _, [] => []
  | fuel + 1, c :: cs =>
    if isNumCh c then
      (c :: cs.takeWhile isNumCh) :: extractNumRunsAux fuel (cs.dropWhile isNumCh)
    else extractNumRunsAux fuel cs

/-- JavaScript `str.match(/[\d.]+/g)`: the maximal runs of digits and dots,
in order (empty list when the match is null). -/
def extractNumRuns (s : List Char) : List (List Char) := extractNumRunsAux s.length s

/-- Match of ["']([^"']+)["']\) at the head of the input: an opening quote, a
nonempty run of non-quote characters, a closing quote (either kind) and a
closing parenthesis; returns the captured run. -/
def quotedArg : List Char → Option (List Char)
  | c :: rest =>
    if isQuoteCh c then
      let run := rest.takeWhile (fun d => !isQuoteCh d)
      match rest.drop run.length with
      | d :: e :: _ =>
        if !run.isEmpty && isQuoteCh d && e == ')' then some run else none
      | _ => none
    else none
  | [] => none

/-- First match of `opener` + ["']([^"']+)["']\) anywhere in the input,
returning the captured quoted run.  With opener "s(" this is the regex
/s\(["']([^"']+)["']\)/, with ".n(" it is /\.n\(["']([^"']+)["']\)/, and with
"note(" it is /note\(["']([^"']+)["']\)/. -/
def scanLiteral (opener : List Char) : List Char → Option (List Char)
  | [] => none
  | c :: cs =>
    if lstartsWith opener (c :: cs) then
      match quotedArg ((c :: cs).drop opener.length) with
      | some run => some run
      | none => scanLiteral opener cs
    else scanLiteral opener cs

/-- First match of `opener` + ([\d.]+)\) anywhere in the input, returning the
captured digit/dot run.  With opener ".slow(" this is /\.slow\(([\d.]+)\)/ and
with ".fast(" it is /\.fast\(([\d.]+)\)/. -/
def scanParenNum (opener : List Char) : List Char → Option (List Char)
  | [] => none
  | c :: cs =>
    if lstartsWith opener (c :: cs) then
      let after := (c :: cs).drop opener.length
      let run := after.takeWhile isNumCh
      match after.drop run.length with
      | d :: _ =>
        if !run.isEmpty && d == ')' then some run else scanParenNum opener cs
      | [] => scanParenNum opener cs
    else scanParenNum opener cs

/-- JavaScript `str.replace(/^<|>$/g, '')`: drop one leading angle bracket
and one trailing angle bracket when present. -/
def stripAngles (s : List Char) : List Char :=
  let a : List Char := match s with
    | c :: rest => if c = '<' then rest else s
    | [] => s
  if a.getLast? = some '>' then a.dropLast else a

/-- JavaScript `str.split('/')` restricted to the two components the source
reads: parts[0] (before the first slash) and parts[1] (between the first and
second slash, possibly empty). -/
def slashParts (s : List Char) : List Char × List Char :=
  (s.takeWhile (fun c => c != '/'),
   ((s.dropWhile (fun c => c != '/')).drop 1).takeWhile (fun c => c != '/'))

/-! Embedding of services/rhythmParser.ts. -/

/-- BeatPattern of rhythmParser.ts. -/
structure BeatPattern where
  beats : List JSNum
  bpm : JSNum
  patternLength : ℕ
deriving DecidableEq, Repr

/-- The canonical default 4/4 pattern of parseRhythmFromCode. -/
def defaultPattern : BeatPattern :=
  { beats := [JSNum.num 0, JSNum.num (1/4), JSNum.num (1/2), JSNum.num (3/4)],
    bpm := JSNum.num 120,
    patternLength := 1 }

/-- A token denotes a hit unless it is the rest symbol or starts with it:
`event !== '~' && !event.startsWith('~')`. -/
def isHit (event : List Char) : Bool :=
  !(event == "~".data) && !(lstartsWith "~".data event)

/-- The events.forEach loop of parseRhythmFromCode: walk the token list
keeping a running currentPosition that advances by stepSize per token, pushing
the position of every hit token; returns the pushed positions together with
the final currentPosition. -/
def beatsFold (stepSize : JSNum) : List (List Char) → JSNum → List JSNum × JSNum
  | [], pos => ([], pos)
  | e :: rest, pos =>
    let r := beatsFold stepSize rest (pos.add stepSize)
    (if isHit e then pos :: r.1 else r.1, r.2)

/-- Indices of the hit tokens within a token list (specification helper). -/
def hitIdx : List (List Char) → List ℕ
  | [] => []
  | e :: es => if isHit e then 0 :: (hitIdx es).map (· + 1) else (hitIdx es).map (· + 1)

/-- The `.slow()` / `.fast()` tempo-modifier scan of parseRhythmFromCode:
starting from the default 120, divide by a parsed `.slow(k)` factor, else
multiply by a parsed `.fast(k)` factor (the `.fast` branch is only reached
when the code does not contain `.slow(`). -/
def rawBpm (code : List Char) : JSNum :=
  if containsSub ".slow(".data code then
    match scanParenNum ".slow(".data code with
    | some grp => JSNum.div (JSNum.num 120) (jsParseFloat grp)
    | none => JSNum.num 120
  else if containsSub ".fast(".data code then
    match scanParenNum ".fast(".data code with
    | some grp => JSNum.mul (JSNum.num 120) (jsParseFloat grp)
    | none => JSNum.num 120
  else JSNum.num 120

/-- parseRhythmFromCode of rhythmParser.ts.  The try/catch of the source
cannot fire in this model (every operation is total); the source's catch
clause returns defaultPattern, matching every fall-through below. -/
def parseRhythmFromCode (code : List Char) : BeatPattern :=
  if jsTrim code = [] then defaultPattern
  else
    match scanLiteral "s(".data code with
    | none => defaultPattern
    | some firstPattern =>
      let events := wsTokens firstPattern
      let stepSize := JSNum.div (JSNum.num 1) (JSNum.num events.length)
      let bf := beatsFold stepSize events (JSNum.num 0)
      if 0 < bf.1.length then
        let normalizedBeats := bf.1.map (fun b => JSNum.div b bf.2)
        { beats := normalizedBeats,
          bpm := JSNum.max2 (JSNum.num 60) (JSNum.min2 (JSNum.num 180) (rawBpm code)),
          patternLength := 1 }
      else defaultPattern

/-- getBeatIntensity of rhythmParser.ts: minimum wrap-around distance from
the phase position to any beat, zero outside the 0.15 response window,
quadratic falloff inside it. -/
def getBeatIntensity (beatPosition : JSNum) (beats : List JSNum) : JSNum :=
  if beats.length = 0 then JSNum.num 0
  else
    let minDistance := JSNum.minList (beats.map (fun beat =>
      let d1 := (beatPosition.sub beat).abs
      let d2 := (beatPosition.sub (beat.add (JSNum.num 1))).abs
      let d3 := (beatPosition.sub (beat.sub (JSNum.num 1))).abs
      JSNum.min2 d1 (JSNum.min2 d2 d3)))
    if JSNum.lt (JSNum.num (3/20)) minDistance then JSNum.num 0
    else
      let normalizedDistance := JSNum.div minDistance (JSNum.num (3/20))
      JSNum.max2 (JSNum.num 0)
        ((JSNum.num 1).sub ((normalizedDistance.mul normalizedDistance).mul (JSNum.num 2)))

/-- ScopePattern of rhythmParser.ts. -/
structure ScopePattern where
  sequence : List JSNum
  speed : JSNum
  patternLength : ℕ
deriving DecidableEq, Repr

/-- Length of a match of \.n\([^)]+\) at the head of the input: ".n(" followed
by a nonempty run of non-parenthesis characters and a closing ")". -/
def matchNCallLen (s : List Char) : Option ℕ :=
  if lstartsWith ".n(".data s then
    let run := (s.drop 3).takeWhile (fun c => c != ')')
    if !run.isEmpty && lstartsWith ")".data ((s.drop 3).drop run.length) then
      some (3 + run.length + 1)
    else none
  else none

/-- Index just past the first match of \.n\([^)]+\) in the input. -/
def findNCallEnd : List Char → Option ℕ
  | [] => none
  | c :: cs =>
    match matchNCallLen (c :: cs) with
    | some len => some len
    | none => (findNCallEnd cs).map (· + 1)

/-- Offset of the first position in the input where the terminator
(?:\n\n|\n\s*$|$) of the scope-extraction regex matches: two consecutive
newlines, a newline followed only by whitespace to the end, or the end. -/
def termScanAux : List Char → ℕ
  | [] => 0
  | c :: cs =>
    if c == '\n' && (lstartsWith "\n".data cs || cs.all isWsCh) then 0
    else 1 + termScanAux cs

/-- Group 1 of code.match(/([\s\S]*?\.n\([^)]+\)[\s\S]*?)(?:\n\n|\n\s*$|$)/):
everything from the start of the code through the first complete .n(...) call
and minimally on to the first terminator position. -/
def nMatchGroup (code : List Char) : Option (List Char) :=
  match findNCallEnd code with
  | none => none
  | some e => some (code.take (e + termScanAux (code.drop e)))

/-- Group 1 of prefix.match(/(note\(|s\()[\s\S]*$/): the earlier of the two
openers "note(" and "s(" occurring in the prefix. -/
def findOpener : List Char → Option (List Char)
  | [] => none
  | c :: cs =>
    if lstartsWith "note(".data (c :: cs) then some "note(".data
    else if lstartsWith "s(".data (c :: cs) then some "s(".data
    else findOpener cs

/-- The patternCode selection of parseScopePattern: with the explicit marker,
the trimmed prefix before the first "._scope()"; otherwise the trimmed group
of the .n-call regex, falling back to the trimmed suffix of the code from the
last occurrence of the opener found before the first ".n(", and null when
".n(" sits at position 0 or is absent. -/
def scopePatternCode (hasMarker : Bool) (code : List Char) : Option (List Char) :=
  if hasMarker then
    match prefixBeforeFirst "._scope()".data code with
    | some pre => some (jsTrim pre)
    | none => some (jsTrim [])
  else
    match nMatchGroup code with
    | some g => some (jsTrim g)
    | none =>
      match idxOfFirst ".n(".data code with
      | some nIndex =>
        if 0 < nIndex then
          let pre := code.take nIndex
          let startIndex := match findOpener pre with
            | some op => lastIndexOfPat op pre
            | none => 0
          some (jsTrim (code.drop startIndex))
        else none
      | none => none

/-- Fuel-indexed worker for the note-group tokenizer. -/
def noteGroupsAux : ℕ → List Char → List (List Char)
  | 0, _ => []
  | _, [] => []
  | fuel + 1, c :: cs =>
    if c == '[' then
      let inner := cs.takeWhile (fun d => d != ']')
      if !inner.isEmpty && lstartsWith "]".data (cs.drop inner.length) then
        ('[' :: inner ++ [']']) :: noteGroupsAux fuel ((cs.drop inner.length).drop 1)
      else noteGroupsAux fuel cs
    else if !isWsCh c && c != '[' && c != ']' then
      (c :: cs.takeWhile (fun d => !isWsCh d && d != '[' && d != ']')) ::
        noteGroupsAux fuel (cs.dropWhile (fun d => !isWsCh d && d != '[' && d != ']'))
    else noteGroupsAux fuel cs

/-- JavaScript notePattern.match(/\[[^\]]+\]|[^\s\[\]]+/g) || []: bracketed
groups and bare tokens of the note literal, in order. -/
def noteGroupsOf (s : List Char) : List (List Char) := noteGroupsAux s.length s

/-- Body of parseScopePattern once patternCode has been selected: parse the
.n literal (angle-bracket strip, optional /divisor, numeric tokens normalized
by their maximum and the divisor); else derive an evenly spaced sequence from
the note literal groups; else the default sequence.  Speed comes from .fast()
directly or .slow() inverted. -/
def scopeFromPatternCode (patternCode : List Char) : ScopePattern :=
  let speed : JSNum :=
    if containsSub ".fast(".data patternCode then
      match scanParenNum ".fast(".data patternCode with
      | some grp => jsParseFloat grp
      | none => JSNum.num 1
    else if containsSub ".slow(".data patternCode then
      match scanParenNum ".slow(".data patternCode with
      | some grp => JSNum.div (JSNum.num 1) (jsParseFloat grp)
      | none => JSNum.num 1
    else JSNum.num 1
  match scanLiteral ".n(".data patternCode with
  | some nPattern =>
    let ps1 := stripAngles nPattern
    let pd : List Char × JSNum :=
      if containsSub "/".data ps1 then
        let parts := slashParts ps1
        (parts.1, jsOr1 (jsParseFloat parts.2))
      else (ps1, JSNum.num 1)
    let numbers := extractNumRuns pd.1
    if numbers.isEmpty then
      { sequence := [], speed := speed, patternLength := 1 }
    else
      let values := numbers.map jsParseFloat
      let maxValue := JSNum.maxList values
      { sequence := values.map (fun v => (v.div maxValue).div pd.2),
        speed := speed, patternLength := numbers.length }
  | none =>
    match scanLiteral "note(".data patternCode with
    | some notePattern =>
      let noteGroups := noteGroupsOf notePattern
      { sequence := (List.range noteGroups.length).map
          (fun i : ℕ => JSNum.num ((i : ℚ) / (noteGroups.length : ℚ))),
        speed := speed, patternLength := noteGroups.length }
    | none =>
      { sequence := [JSNum.num 0, JSNum.num (1/4), JSNum.num (1/2), JSNum.num (3/4)],
        speed := speed, patternLength := 4 }

/-- parseScopePattern of rhythmParser.ts.  The try/catch of the source cannot
fire in this model; its catch clause returns null, matching no branch here. -/
def parseScopePattern (code : List Char) : Option ScopePattern :=
  let hasScopeMarker := containsSub "._scope()".data code
  let hasScopePattern := containsSub ".n(".data code &&
    (containsSub "note(".data code || containsSub "s(".data code)
  if code.isEmpty || (!hasScopeMarker && !hasScopePattern) then none
  else (scopePatternCode hasScopeMarker code).map scopeFromPatternCode

/-! Embedding of the per-frame state updates of components/Visualizer.tsx. -/

/-- The beat-intensity smoothing of the animate loop (Visualizer.tsx lines
126-129): with smoothing = 0.3, the new value is
prev * smoothing + rawIntensity * (1 - smoothing). -/
def smoothBeatIntensity (prev rawIntensity : ℚ) : ℚ :=
  prev * (3/10) + rawIntensity * (1 - 3/10)

/-- The amplitude-envelope step of the animate loop (Visualizer.tsx lines
178-184) with transitionSpeed = 0.05: diff = target - prev; snap when
|diff| < 0.1, else advance by diff * transitionSpeed. -/
def envStep (target prev : ℚ) : ℚ :=
  let diff := target - prev
  let easeFactor := if |diff| < 1/10 then diff else diff * (1/20)
  prev + easeFactor

/-- Iterated envelope steps from current = 0 toward the constant target 100. -/
def envIter : ℕ → ℚ
  | 0 => 0
  | n + 1 => envStep 100 (envIter n)

/-- The SVG render guard of Visualizer.tsx line 352:
dimensions.width > 0 && dimensions.height > 0. -/
def svgRendered (width height : ℚ) : Bool :=
  decide (0 < width) && decide (0 < height)

/-! Embedding of getFrequencyData of services/audioAnalyser.ts.  The analyser
state (module-level nullable analyser/frequencyData) is abstracted as the
boolean `connected` plus the byte buffer the AnalyserNode would fill; bins of
a Uint8Array are naturals at most 255. -/

/-- Frequency bands returned by getFrequencyData. -/
structure FrequencyBands where
  bass : JSNum
  mid : JSNum
  treble : JSNum
  overall : JSNum
deriving DecidableEq, Repr

/-- Sum of bin values each normalized by 255 (the loop's running sums). -/
def sumNorm (l : List ℕ) : ℚ := (l.map (fun v : ℕ => (v : ℚ) / 255)).sum

/-- getFrequencyData: all-zero bands when no analyser is attached; otherwise
band averages over the first 10% (bass, amplified by 2 and clamped), the next
50% (mid) and the remaining 40% (treble) of the bins, plus the overall mean.
Math.floor(bufferLength * 0.1) and Math.floor(bufferLength * 0.6) are the
natural-number divisions below. -/
def getFrequencyData (connected : Bool) (frequencyData : List ℕ) : FrequencyBands :=
  if !connected then
    { bass := JSNum.num 0, mid := JSNum.num 0, treble := JSNum.num 0, overall := JSNum.num 0 }
  else
    let bufferLength := frequencyData.length
    let bassEnd := bufferLength / 10
    let midEnd := bufferLength * 6 / 10
    let bassSum := sumNorm (frequencyData.take bassEnd)
    let midSum := sumNorm ((frequencyData.take midEnd).drop bassEnd)
    let trebleSum := sumNorm (frequencyData.drop midEnd)
    let overallSum := sumNorm frequencyData
    { bass := JSNum.min2 (JSNum.num 1)
        ((JSNum.div (JSNum.num bassSum) (JSNum.num bassEnd)).mul (JSNum.num 2)),
      mid := JSNum.min2 (JSNum.num 1)
        (JSNum.div (JSNum.num midSum) (JSNum.num ((midEnd : ℚ) - (bassEnd : ℚ)))),
      treble := JSNum.min2 (JSNum.num 1)
        (JSNum.div (JSNum.num trebleSum) (JSNum.num ((bufferLength : ℚ) - (midEnd : ℚ)))),
      overall := JSNum.min2 (JSNum.num 1)
        (JSNum.div (JSNum.num overallSum) (JSNum.num bufferLength)) }

/-! Embedding of the ribbon-geometry generator (the `layers` useMemo of
Visualizer.tsx, lines 199-333).  All numeric state feeding the generator
(time, activeAmplitude, frequency bands, intensities, dimensions) consists of
finite JavaScript numbers, passed here as rationals; Math.sin, Math.cos and
Math.PI are parameters (jsSin, jsCos, jsPi) lifted over JSNum so that sin/cos
of a non-finite value is NaN, exactly as in JavaScript.  Points keep their
numeric coordinates; the source's toFixed(1) string formatting and SVG path
concatenation are presentation only. -/

/-- Inputs of one evaluation of the `layers` useMemo. -/
structure VizInputs where
  jsSin : ℚ → ℚ
  jsCos : ℚ → ℚ
  jsPi : ℚ
  width : ℚ
  height : ℚ
  time : ℚ
  activeAmplitude : ℚ
  bass : ℚ
  mid : ℚ
  treble : ℚ
  beatIntensity : ℚ
  scopeIntensity : ℚ
  hasScope : Bool

/-- One generated ribbon layer: its id, the top-edge points in ascending x
order and the bottom-edge points in the unshifted (descending x) order. -/
structure LayerGeom where
  id : ℕ
  topPoints : List (ℚ × JSNum)
  bottomPoints : List (ℚ × JSNum)
deriving DecidableEq, Repr

/-- Math.sin / Math.cos lifted over JSNum: NaN on any non-finite input. -/
def liftUnary (f : ℚ → ℚ) : JSNum → JSNum
  | JSNum.num q => JSNum.num (f q)
  | _ => JSNum.nan

/-- resolution = Math.max(50, config.spikeCount) with spikeCount = 228. -/
def resolutionV : ℕ := max 50 228

/-- The x coordinate of sample i: x = i * step with step = width/resolution. -/
def xAt (width : ℚ) (i : ℕ) : ℚ := (i : ℚ) * (width / (resolutionV : ℚ))

/-- waveX = (x / width) * 10 * (config.frequency * 10) with frequency 0.056;
the division is JavaScript division, so x/width is NaN when width = 0 (both
operands are then zero). -/
def waveXAt (width : ℚ) (i : ℕ) : JSNum :=
  ((JSNum.div (JSNum.num (xAt width i)) (JSNum.num width)).mul (JSNum.num 10)).mul
    (JSNum.num (7/125 * 10))

/-- frequencyBands[layer] || 0 for the three-element band array. -/
def layerFrequencyOf (v : VizInputs) (layer : ℕ) : ℚ :=
  [v.bass, v.mid, v.treble].getD layer 0

/-- One layer of the geometry loop of the `layers` useMemo, lines 220-331. -/
def layerGeom (v : VizInputs) (layer : ℕ) : LayerGeom :=
  let layerFrequency := layerFrequencyOf v layer
  let rhythmMultiplier : ℚ := if layer = 0 then 1 + v.beatIntensity * (3/10) else 1
  let rhythmAmplitudeBoost : ℚ := if layer = 0 then 1 + v.beatIntensity * (1/4) else 1
  let scopeAmplitudeBoost : ℚ :=
    if layer = 1 ∧ v.hasScope then 17/20 + v.scopeIntensity * (3/10) else 1
  let layerSpeedMult : ℚ := 1/2 + (layer : ℚ) * (2/5)
  let frequencySpeedBoost : ℚ := 1 + layerFrequency * (1/2)
  let layerDir : ℚ := if layer % 2 = 0 then 1 else -1
  let layerTime : ℚ := v.time * layerSpeedMult * layerDir * frequencySpeedBoost * rhythmMultiplier
  let phaseOffset : ℚ := (layer : ℚ) * (v.jsPi * 2 / 3) + 143
  let frequencyAmplitudeMultiplier : ℚ := 7/10 + layerFrequency * (3/5)
  let baseLayerAmplitude : ℚ := v.activeAmplitude * frequencyAmplitudeMultiplier * rhythmAmplitudeBoost
  let centerY : ℚ := v.height / 2
  let amplitudeRatio : ℚ := v.activeAmplitude / 105
  let pts := (List.range (resolutionV + 1)).map (fun i =>
    let x := xAt v.width i
    let waveX := waveXAt v.width i
    let frequencyModulation :=
      (JSNum.num layerFrequency).mul
        (liftUnary v.jsSin ((waveX.mul (JSNum.num (1/2))).add (JSNum.num (v.time * 3))))
    let rhythmModulation :=
      if layer = 0 then
        ((JSNum.num v.beatIntensity).mul
          (liftUnary v.jsSin ((waveX.mul (JSNum.num (3/2))).add (JSNum.num (v.time * 3))))).mul
          (JSNum.num (1/5))
      else JSNum.num 0
    let carrier :=
      liftUnary v.jsSin
        ((((waveX.add (JSNum.num layerTime)).add (JSNum.num phaseOffset)).add
          (frequencyModulation.mul (JSNum.num (3/10)))).add rhythmModulation)
    let harmonicModulation :=
      (JSNum.num layerFrequency).mul
        (liftUnary v.jsCos ((waveX.mul (JSNum.num (6/5))).sub (JSNum.num (v.time * 2))))
    let harmonicRhythmMod :=
      if layer = 0 then
        ((JSNum.num v.beatIntensity).mul
          (liftUnary v.jsCos ((waveX.mul (JSNum.num (6/5))).sub (JSNum.num (v.time * (5/2)))))).mul
          (JSNum.num (3/20))
      else JSNum.num 0
    let harmonic :=
      (liftUnary v.jsSin
        (((((waveX.mul (JSNum.num (23/10))).sub (JSNum.num (layerTime * (3/2)))).add
          (JSNum.num (layer : ℚ))).add (harmonicModulation.mul (JSNum.num (1/5)))).add
          harmonicRhythmMod)).mul (JSNum.num (7/20))
    let displacementSignal := carrier.add harmonic
    let effectiveAmplitude :=
      if layer = 1 ∧ v.hasScope then
        let absDisplacement := displacementSignal.abs
        if JSNum.lt (JSNum.num (7/10)) absDisplacement then
          let peakProximity :=
            JSNum.div (absDisplacement.sub (JSNum.num (7/10))) (JSNum.num (1 - 7/10))
          let scopePeakModulation := (JSNum.num v.scopeIntensity).mul peakProximity
          (JSNum.num baseLayerAmplitude).mul
            ((JSNum.num 1).add ((JSNum.num (scopeAmplitudeBoost - 1)).mul scopePeakModulation))
        else JSNum.num baseLayerAmplitude
      else JSNum.num baseLayerAmplitude
    let currentSpineY :=
      (JSNum.num centerY).add ((displacementSignal.mul effectiveAmplitude).mul (JSNum.num (11/20)))
    let baseThickness := effectiveAmplitude.mul (JSNum.num (1/4))
    let frequencyBreathing :=
      ((JSNum.num layerFrequency).mul
        (liftUnary v.jsCos (((waveX.mul (JSNum.num (4/5))).add (JSNum.num (v.time * 2))).add
          (JSNum.num (layer : ℚ))))).mul (JSNum.num (1/5))
    let rhythmBreathing :=
      if layer = 0 then
        ((JSNum.num v.beatIntensity).mul
          (liftUnary v.jsCos ((waveX.mul (JSNum.num 1)).add (JSNum.num (v.time * (5/2)))))).mul
          (JSNum.num (3/20))
      else JSNum.num 0
    let breathing :=
      if (1/10 : ℚ) < amplitudeRatio then
        (((liftUnary v.jsCos (((waveX.mul (JSNum.num (4/5))).add (JSNum.num (v.time * 2))).add
          (JSNum.num (layer : ℚ)))).mul (JSNum.num (3/20))).add frequencyBreathing).add
          rhythmBreathing
      else JSNum.num 0
    let currentThickness :=
      JSNum.max2 (JSNum.num 1)
        (baseThickness.mul ((JSNum.num 1).add (breathing.mul (JSNum.num amplitudeRatio))))
    let yTop := currentSpineY.sub currentThickness
    let yBottom := currentSpineY.add currentThickness
    (x, yTop, yBottom))
  { id := layer,
    topPoints := pts.map (fun p => (p.1, p.2.1)),
    bottomPoints := (pts.map (fun p => (p.1, p.2.2))).reverse }

/-- The full `layers` useMemo: one LayerGeom per layer index 0, 1, 2. -/
def layersGeometry (v : VizInputs) : List LayerGeom :=
  (List.range 3).map (fun layer => layerGeom v layer)

/-! Theorems.  Claim theorems are named c1 .. c10 with suffixes; helper
lemmas carry their own names and are shared. -/

/-- C1 counterexample: at previous value 1 and raw value 0 the code's
smoothed beat intensity is 0.3, not the 0.7 the claim's formula
0.7*prev + 0.3*raw would give. -/
theorem c1_smoothing_counterexample :
    ¬ smoothBeatIntensity 1 0 = 7/10 * 1 + 3/10 * 0 := by
  norm_num [smoothBeatIntensity]

/-- C1 amended: the smoothing constant 0.3 multiplies the previous value, so
the new smoothed intensity is 0.3*prev + 0.7*raw — the blend weight toward
the new raw value is 0.7 and only 30% is retained from the previous frame. -/
theorem c1_smoothing_amended :
    ∀ prev rawIntensity : ℚ,
      smoothBeatIntensity prev rawIntensity = 3/10 * prev + 7/10 * rawIntensity := by
  intro p r
  simp only [smoothBeatIntensity]
  ring

/-- Numeric fact used for the envelope: (19/20)^134 has not yet fallen below
1/1000, so at step 134 the envelope gap 100*(19/20)^134 is still at least
0.1. -/
theorem envKey134 : (1 : ℚ)/1000 ≤ (19/20 : ℚ) ^ 134 := by norm_num

/-- Numeric fact used for the envelope: (19/20)^135 is below 1/1000, so at
step 135 the envelope gap 100*(19/20)^135 is below 0.1 and the next step
snaps. -/
theorem envKey135 : (19/20 : ℚ) ^ 135 < 1/1000 := by norm_num

/-- Closed form of the iterated envelope before the snap: as long as the gap
stays at least 0.1 (up to step 135), each step multiplies the gap by 19/20. -/
theorem envIter_closed : ∀ n : ℕ, n ≤ 135 → envIter n = 100 - 100 * (19/20 : ℚ) ^ n := by
  intro n
  induction n with
  | zero => intro _; simp [envIter]
  | succ n ih =>
    intro hn
    have hcl := ih (by omega)
    have hq : (19/20 : ℚ) ^ 134 ≤ (19/20 : ℚ) ^ n :=
      pow_le_pow_of_le_one (by norm_num) (by norm_num) (by omega)
    have h1 : (1 : ℚ)/1000 ≤ (19/20 : ℚ) ^ n := le_trans envKey134 hq
    have hbig : ¬ |(100 : ℚ) - (100 - 100 * (19/20 : ℚ) ^ n)| < 1/10 := by
      rw [abs_of_nonneg (by nlinarith)]
      nlinarith
    show envStep 100 (envIter n) = _
    rw [hcl]
    simp only [envStep]
    rw [if_neg hbig]
    ring

/-- After 136 steps the envelope has snapped to exactly 100. -/
theorem envIter_snap : envIter 136 = 100 := by
  have hcl := envIter_closed 135 (le_refl 135)
  have hpos : (0 : ℚ) < (19/20 : ℚ) ^ 135 := pow_pos (by norm_num) 135
  have hsmall : |(100 : ℚ) - (100 - 100 * (19/20 : ℚ) ^ 135)| < 1/10 := by
    rw [abs_of_nonneg (by nlinarith)]
    nlinarith [envKey135]
  show envStep 100 (envIter 135) = 100
  rw [hcl]
  simp only [envStep]
  rw [if_pos hsmall]
  ring

/-- C8: the envelope step snaps to the target exactly when |target - current|
is below 0.1 and otherwise advances by diff * 0.05; iterated from 0 toward
the constant target 100, the value strictly increases at every step and never
equals 100 until step 136, where it snaps to exactly 100. -/
theorem c8_envelope_convergence :
    (∀ target prev : ℚ, |target - prev| < 1/10 → envStep target prev = target) ∧
    (∀ target prev : ℚ, ¬ |target - prev| < 1/10 →
      envStep target prev = prev + (target - prev) * (1/20)) ∧
    envIter 136 = 100 ∧
    (∀ n, n < 136 → envIter n < envIter (n + 1) ∧ envIter n ≠ 100) := by
  refine ⟨?_, ?_, envIter_snap, ?_⟩
  · intro t p h
    simp only [envStep]
    rw [if_pos h]
    ring
  · intro t p h
    simp only [envStep]
    rw [if_neg h]
  · intro n hn
    have hpos : (0 : ℚ) < (19/20 : ℚ) ^ n := pow_pos (by norm_num) n
    have hne : envIter n ≠ 100 := by
      rw [envIter_closed n (by omega)]
      intro h
      nlinarith
    refine ⟨?_, hne⟩
    by_cases h135 : n ≤ 134
    · rw [envIter_closed n (by omega), envIter_closed (n + 1) (by omega)]
      have : (19/20 : ℚ) ^ (n + 1) < (19/20 : ℚ) ^ n := by
        rw [pow_succ]
        nlinarith
      nlinarith
    · have hn135 : n = 135 := by omega
      subst hn135
      rw [envIter_closed 135 (le_refl 135)]
      show _ < envIter 136
      rw [envIter_snap]
      have hpos135 : (0 : ℚ) < (19/20 : ℚ) ^ 135 := pow_pos (by norm_num) 135
      nlinarith

/-- C8 witness: concrete applications of the three parts — a snap from
99.99, a proportional step from 0, and the first strict increase. -/
theorem c8_envelope_convergence_witness :
    envStep 100 (9999/100) = 100 ∧ envStep 100 0 = 0 + (100 - 0) * (1/20) ∧
      envIter 0 < envIter 1 := by
  refine ⟨c8_envelope_convergence.1 100 (9999/100) (by norm_num [abs_lt]),
    c8_envelope_convergence.2.1 100 0 (by norm_num),
    (c8_envelope_convergence.2.2.2 0 (by norm_num)).1⟩

/-- Concrete geometry inputs with viewport width 0 (sin, cos instantiated by
the constant-zero function; none of the stated facts depends on them). -/
def vizZeroWidth : VizInputs :=
  { jsSin := fun _ => 0, jsCos := fun _ => 0, jsPi := 314159/100000,
    width := 0, height := 200, time := 1, activeAmplitude := 105,
    bass := 1/2, mid := 1/2, treble := 1/2, beatIntensity := 1/2,
    scopeIntensity := 1/2, hasScope := true }

/-- C2 counterexample: with viewportWidth = 0 the geometry synthesis does not
short-circuit — it still produces all 3 layer paths — and the division
x/width is evaluated with width 0 (0/0, giving NaN wave coordinates). -/
theorem c2_zero_viewport_counterexample :
    (layersGeometry vizZeroWidth).length = 3 ∧ waveXAt 0 0 = JSNum.nan := by
  constructor
  · simp [layersGeometry]
  · simp [waveXAt, xAt, JSNum.div]

/-- C2 amended: with viewportWidth = 0 or viewportHeight = 0, the component
skips rendering (the width > 0 && height > 0 guard on the SVG fails) and
nothing throws, but the geometry memo still executes: it produces 3 layers of
resolution+1 top and bottom points each, and with width = 0 every waveX
evaluates the division x/width as 0/0, yielding NaN. -/
theorem c2_zero_viewport_amended :
    ∀ v : VizInputs,
      (v.width = 0 ∨ v.height = 0 → svgRendered v.width v.height = false) ∧
      (layersGeometry v).length = 3 ∧
      (∀ g ∈ layersGeometry v, g.topPoints.length = resolutionV + 1 ∧
        g.bottomPoints.length = resolutionV + 1) ∧
      (v.width = 0 → ∀ i : ℕ, waveXAt v.width i = JSNum.nan) := by
  intro v
  refine ⟨?_, ?_, ?_, ?_⟩
  · rintro (h | h) <;> simp [svgRendered, h]
  · simp [layersGeometry]
  · intro g hg
    simp only [layersGeometry, List.mem_map, List.mem_range] at hg
    obtain ⟨layer, _, rfl⟩ := hg
    constructor <;> simp [layerGeom]
  · intro hw i
    rw [hw]
    simp [waveXAt, xAt, JSNum.div]

/-- C2 amended witness: at the concrete zero-width inputs the SVG guard is
false and sample 7's waveX is NaN. -/
theorem c2_zero_viewport_amended_witness :
    svgRendered vizZeroWidth.width vizZeroWidth.height = false ∧
      waveXAt vizZeroWidth.width 7 = JSNum.nan := by
  exact ⟨(c2_zero_viewport_amended vizZeroWidth).1 (Or.inl rfl),
    (c2_zero_viewport_amended vizZeroWidth).2.2.2 rfl 7⟩

/-- A member on which the predicate fails survives dropWhile. -/
theorem mem_dropWhile_of_neg {p : Char → Bool} :
    ∀ {s : List Char} {c : Char}, c ∈ s → p c = false → c ∈ s.dropWhile p := by
  intro s
  induction s with
  | nil => intro c hc _; cases hc
  | cons a as ih =>
    intro c hc hp
    by_cases hpa : p a
    · rw [List.dropWhile_cons_of_pos hpa]
      rcases List.mem_cons.mp hc with rfl | h
      · rw [hpa] at hp; cases hp
      · exact ih h hp
    · rw [List.dropWhile_cons_of_neg hpa]
      exact hc

/-- A non-whitespace member of a string survives trimming. -/
theorem mem_jsTrim_of_mem {c : Char} {s : List Char}
    (hc : c ∈ s) (hw : isWsCh c = false) : c ∈ jsTrim s := by
  unfold jsTrim
  rw [List.mem_reverse]
  apply mem_dropWhile_of_neg _ hw
  rw [List.mem_reverse]
  exact mem_dropWhile_of_neg hc hw

/-- A successful s-literal scan means the code contains the character s. -/
theorem scanLiteral_s_mem :
    ∀ {s lit : List Char}, scanLiteral "s(".data s = some lit → 's' ∈ s := by
  intro s
  induction s with
  | nil => intro lit h; cases h
  | cons c cs ih =>
    intro lit h
    rw [scanLiteral] at h
    by_cases hs : lstartsWith "s(".data (c :: cs) = true
    · have hdata : "s(".data = ['s', '('] := rfl
      rw [hdata] at hs
      simp only [lstartsWith, Bool.and_eq_true, beq_iff_eq] at hs
      exact hs.1 ▸ List.mem_cons_self _ _
    · rw [if_neg hs] at h
      exact List.mem_cons_of_mem _ (ih h)

/-- The hit-index list has one entry per hit token. -/
theorem hitIdx_length : ∀ events : List (List Char),
    (hitIdx events).length = (events.filter isHit).length := by
  intro events
  induction events with
  | nil => rfl
  | cons e es ih =>
    by_cases he : isHit e <;> simp [hitIdx, he, List.filter_cons, ih]

/-- Every hit index is an index into the token list. -/
theorem hitIdx_lt : ∀ events : List (List Char), ∀ i ∈ hitIdx events, i < events.length := by
  intro events
  induction events with
  | nil => intro i hi; cases hi
  | cons e es ih =>
    intro i hi
    by_cases he : isHit e <;> simp only [hitIdx, he, if_true, if_false] at hi
    · rcases List.mem_cons.mp hi with rfl | hi
      · simp
      · obtain ⟨j, hj, rfl⟩ := List.mem_map.mp hi
        have := ih j hj
        simp
        omega
    · obtain ⟨j, hj, rfl⟩ := List.mem_map.mp hi
      have := ih j hj
      simp
      omega

/-- The hit indices are strictly increasing. -/
theorem hitIdx_chain : ∀ events : List (List Char),
    List.Chain' (· < ·) (hitIdx events) := by
  intro events
  induction events with
  | nil => exact List.chain'_nil
  | cons e es ih =>
    have hmap : List.Chain' (· < ·) ((hitIdx es).map (· + 1)) := by
      rw [List.chain'_map]
      exact ih.imp (fun h => by omega)
    by_cases he : isHit e <;> simp only [hitIdx, he, if_true, if_false]
    · rw [List.chain'_cons']
      refine ⟨?_, hmap⟩
      intro b hb
      have : b ∈ (hitIdx es).map (· + 1) := List.mem_of_mem_head? hb
      obtain ⟨j, _, rfl⟩ := List.mem_map.mp this
      omega
    · exact hmap

/-- The forEach loop of parseRhythmFromCode in closed form: starting at
position p with finite step s, the pushed positions are p + i*s over the hit
indices and the final position is p + n*s. -/
theorem beatsFold_eq (s : ℚ) : ∀ (events : List (List Char)) (p : ℚ),
    beatsFold (JSNum.num s) events (JSNum.num p) =
      ((hitIdx events).map (fun i : ℕ => JSNum.num (p + (i : ℚ) * s)),
       JSNum.num (p + (events.length : ℚ) * s)) := by
  intro events
  induction events with
  | nil => intro p; simp [beatsFold, hitIdx]
  | cons e es ih =>
    intro p
    simp only [beatsFold, JSNum.add_num_num, ih (p + s), hitIdx, List.length_cons,
      Prod.mk.injEq]
    by_cases he : isHit e = true
    · rw [if_pos he, if_pos he]
      refine ⟨?_, congrArg JSNum.num (by push_cast; ring)⟩
      rw [List.map_cons, List.map_map]
      refine congrArg₂ _ (congrArg JSNum.num (by push_cast; ring)) (List.map_congr_left ?_)
      intro i _
      refine congrArg JSNum.num ?_
      simp only [Function.comp_apply]
      push_cast
      ring
    · rw [if_neg he, if_neg he]
      refine ⟨?_, congrArg JSNum.num (by push_cast; ring)⟩
      rw [List.map_map]
      refine List.map_congr_left ?_
      intro i _
      refine congrArg JSNum.num ?_
      simp only [Function.comp_apply]
      push_cast
      ring

/-- C4: whenever the first percussion literal tokenizes to n >= 1 tokens of
which k >= 1 are hits, the returned beats are the hit indices divided by n:
exactly k positions, each in [0,1), strictly increasing and pairwise
distinct. -/
theorem c4_beat_positions :
    ∀ (code firstPattern : List Char),
      scanLiteral "s(".data code = some firstPattern →
      wsTokens firstPattern ≠ [] →
      (wsTokens firstPattern).filter isHit ≠ [] →
      ∃ qs : List ℚ,
        (parseRhythmFromCode code).beats = qs.map JSNum.num ∧
        qs = (hitIdx (wsTokens firstPattern)).map
          (fun i : ℕ => (i : ℚ) / ((wsTokens firstPattern).length : ℚ)) ∧
        qs.length = ((wsTokens firstPattern).filter isHit).length ∧
        List.Chain' (· < ·) qs ∧
        (∀ q ∈ qs, 0 ≤ q ∧ q < 1) ∧
        List.Pairwise (· ≠ ·) qs := by
  intro code lit hscan hne hhit
  have hn : 0 < (wsTokens lit).length := List.length_pos.mpr hne
  have hnQ : ((wsTokens lit).length : ℚ) ≠ 0 := Nat.cast_ne_zero.mpr (by omega)
  have hnQpos : (0 : ℚ) < ((wsTokens lit).length : ℚ) := by positivity
  have htrim : ¬ jsTrim code = [] := by
    intro h
    have hmem := mem_jsTrim_of_mem (scanLiteral_s_mem hscan) (by decide)
    rw [h] at hmem
    cases hmem
  have hstep : JSNum.div (JSNum.num 1) (JSNum.num ((wsTokens lit).length : ℚ)) =
      JSNum.num (1 / ((wsTokens lit).length : ℚ)) := JSNum.div_num_num _ _ hnQ
  have hfold := beatsFold_eq (1 / ((wsTokens lit).length : ℚ)) (wsTokens lit) 0
  have hlen2 : (hitIdx (wsTokens lit)).length = ((wsTokens lit).filter isHit).length :=
    hitIdx_length _
  have hpos : 0 < ((hitIdx (wsTokens lit)).map
      (fun i : ℕ => JSNum.num (0 + (i : ℚ) * (1 / ((wsTokens lit).length : ℚ))))).length := by
    rw [List.length_map, hlen2]
    exact List.length_pos.mpr hhit
  have hbeats : (parseRhythmFromCode code).beats = ((hitIdx (wsTokens lit)).map
      (fun i : ℕ => (i : ℚ) / ((wsTokens lit).length : ℚ))).map JSNum.num := by
    simp only [parseRhythmFromCode, if_neg htrim, hscan, hstep, hfold, if_pos hpos]
    rw [List.map_map, List.map_map]
    refine List.map_congr_left ?_
    intro i _
    simp only [Function.comp_apply]
    have h1 : (0 : ℚ) + ((wsTokens lit).length : ℚ) * (1 / ((wsTokens lit).length : ℚ)) = 1 := by
      field_simp
    rw [h1, JSNum.div_num_num _ 1 one_ne_zero]
    refine congrArg JSNum.num ?_
    field_simp
  have hch : List.Chain' (· < ·) ((hitIdx (wsTokens lit)).map
      (fun i : ℕ => (i : ℚ) / ((wsTokens lit).length : ℚ))) := by
    rw [List.chain'_map]
    refine (hitIdx_chain (wsTokens lit)).imp ?_
    intro a b hab
    exact div_lt_div_of_pos_right (by exact_mod_cast hab) hnQpos
  refine ⟨(hitIdx (wsTokens lit)).map
      (fun i : ℕ => (i : ℚ) / ((wsTokens lit).length : ℚ)), hbeats, rfl, ?_, hch, ?_, ?_⟩
  · rw [List.length_map, hlen2]
  · intro q hq
    obtain ⟨i, hi, rfl⟩ := List.mem_map.mp hq
    have hilt := hitIdx_lt _ _ hi
    constructor
    · positivity
    · rw [div_lt_one hnQpos]
      exact_mod_cast hilt
  · exact (List.chain'_iff_pairwise.mp hch).imp ne_of_lt

/-- C4 witness: the four-token pattern "bd hh sd hh" yields four positions
0, 1/4, 1/2, 3/4 with all the stated properties. -/
theorem c4_beat_positions_witness :
    ∃ qs : List ℚ,
      (parseRhythmFromCode "s(\"bd hh sd hh\")".data).beats = qs.map JSNum.num ∧
      qs = (hitIdx (wsTokens "bd hh sd hh".data)).map
        (fun i : ℕ => (i : ℚ) / ((wsTokens "bd hh sd hh".data).length : ℚ)) ∧
      qs.length = ((wsTokens "bd hh sd hh".data).filter isHit).length ∧
      List.Chain' (· < ·) qs ∧
      (∀ q ∈ qs, 0 ≤ q ∧ q < 1) ∧
      List.Pairwise (· ≠ ·) qs :=
  c4_beat_positions _ _ (by decide) (by decide) (by decide)

/-- In the main branch (trim nonempty, literal found, at least one hit), the
returned bpm is the clamped rawBpm. -/
theorem parseRhythm_bpm_eq :
    ∀ (code lit : List Char), scanLiteral "s(".data code = some lit →
      (wsTokens lit).filter isHit ≠ [] →
      (parseRhythmFromCode code).bpm =
        JSNum.max2 (JSNum.num 60) (JSNum.min2 (JSNum.num 180) (rawBpm code)) := by
  intro code lit hscan hhit
  have hne : wsTokens lit ≠ [] := by
    intro h
    rw [h] at hhit
    exact hhit rfl
  have hn : 0 < (wsTokens lit).length := List.length_pos.mpr hne
  have hnQ : ((wsTokens lit).length : ℚ) ≠ 0 := Nat.cast_ne_zero.mpr (by omega)
  have htrim : ¬ jsTrim code = [] := by
    intro h
    have hmem := mem_jsTrim_of_mem (scanLiteral_s_mem hscan) (by decide)
    rw [h] at hmem
    cases hmem
  have hstep : JSNum.div (JSNum.num 1) (JSNum.num ((wsTokens lit).length : ℚ)) =
      JSNum.num (1 / ((wsTokens lit).length : ℚ)) := JSNum.div_num_num _ _ hnQ
  have hfold := beatsFold_eq (1 / ((wsTokens lit).length : ℚ)) (wsTokens lit) 0
  have hpos : 0 < ((hitIdx (wsTokens lit)).map
      (fun i : ℕ => JSNum.num (0 + (i : ℚ) * (1 / ((wsTokens lit).length : ℚ))))).length := by
    rw [List.length_map, hitIdx_length]
    exact List.length_pos.mpr hhit
  simp only [parseRhythmFromCode, if_neg htrim, hscan, hstep, hfold, if_pos hpos]

/-- C5: parseRhythmFromCode is total (this model, like the source's
try/catch contract, never throws) and returns the canonical default for the
empty or whitespace-only string, for source text without a percussion
literal, and for a literal in which no hit token is parsed. -/
theorem c5_default_fallbacks :
    parseRhythmFromCode [] = defaultPattern ∧
    (∀ code : List Char, jsTrim code = [] → parseRhythmFromCode code = defaultPattern) ∧
    (∀ code : List Char, scanLiteral "s(".data code = none →
      parseRhythmFromCode code = defaultPattern) ∧
    (∀ code firstPattern : List Char, scanLiteral "s(".data code = some firstPattern →
      (wsTokens firstPattern).filter isHit = [] →
      parseRhythmFromCode code = defaultPattern) := by
  refine ⟨rfl, ?_, ?_, ?_⟩
  · intro code h
    unfold parseRhythmFromCode
    rw [if_pos h]
  · intro code h
    unfold parseRhythmFromCode
    by_cases htrim : jsTrim code = []
    · rw [if_pos htrim]
    · rw [if_neg htrim, h]
  · intro code lit hscan hfil
    have htrim : ¬ jsTrim code = [] := by
      intro h
      have hmem := mem_jsTrim_of_mem (scanLiteral_s_mem hscan) (by decide)
      rw [h] at hmem
      cases hmem
    have hidx : hitIdx (wsTokens lit) = [] := by
      have hl := hitIdx_length (wsTokens lit)
      rw [hfil] at hl
      exact List.length_eq_zero.mp hl
    simp only [parseRhythmFromCode, if_neg htrim, hscan]
    by_cases hev : wsTokens lit = []
    · rw [hev]
      simp [beatsFold]
    · have hnQ : ((wsTokens lit).length : ℚ) ≠ 0 := Nat.cast_ne_zero.mpr (by
        have := List.length_pos.mpr hev
        omega)
      rw [JSNum.div_num_num _ _ hnQ, beatsFold_eq, hidx]
      simp

/-- C5 witness: the whitespace-only string, a string without any s-literal,
and an all-rest literal each return the default pattern. -/
theorem c5_default_fallbacks_witness :
    parseRhythmFromCode "   ".data = defaultPattern ∧
    parseRhythmFromCode "note(\"c e g\")".data = defaultPattern ∧
    parseRhythmFromCode "s(\"~ ~\")".data = defaultPattern :=
  ⟨c5_default_fallbacks.2.1 _ (by decide),
   c5_default_fallbacks.2.2.1 _ (by decide),
   c5_default_fallbacks.2.2.2 _ "~ ~".data (by decide) (by decide)⟩

/-- C6: with at least one hit parsed, the bpm is 120 with no tempo modifier;
120/k clamped to [60,180] with a .slow(k) modifier (k > 0); and 120*k clamped
to [60,180] with a .fast(k) modifier and no .slow( present. -/
theorem c6_bpm_modifiers :
    ∀ (code firstPattern : List Char),
      scanLiteral "s(".data code = some firstPattern →
      (wsTokens firstPattern).filter isHit ≠ [] →
      (containsSub ".slow(".data code = false → containsSub ".fast(".data code = false →
        (parseRhythmFromCode code).bpm = JSNum.num 120) ∧
      (∀ (grp : List Char) (k : ℚ), containsSub ".slow(".data code = true →
        scanParenNum ".slow(".data code = some grp → jsParseFloat grp = JSNum.num k →
        0 < k →
        (parseRhythmFromCode code).bpm = JSNum.num (max 60 (min 180 (120 / k)))) ∧
      (∀ (grp : List Char) (k : ℚ), containsSub ".slow(".data code = false →
        containsSub ".fast(".data code = true →
        scanParenNum ".fast(".data code = some grp → jsParseFloat grp = JSNum.num k →
        (parseRhythmFromCode code).bpm = JSNum.num (max 60 (min 180 (120 * k)))) := by
  intro code lit hscan hhit
  have hbpm := parseRhythm_bpm_eq code lit hscan hhit
  refine ⟨?_, ?_, ?_⟩
  · intro hs hf
    rw [hbpm]
    unfold rawBpm
    rw [hs, hf]
    simp +decide [min_def, max_def]
  · intro grp k hs hgrp hk hkpos
    rw [hbpm]
    unfold rawBpm
    simp [hs, hgrp, hk, JSNum.div_num_num 120 k (ne_of_gt hkpos)]
  · intro grp k hs hf hgrp hk
    rw [hbpm]
    unfold rawBpm
    simp [hs, hf, hgrp, hk]

/-- C6 witness: slow-by-2 yields bpm 60, fast-by-2 yields 240 clamped to 180,
and no modifier yields 120, on concrete patterns with two hits. -/
theorem c6_bpm_modifiers_witness :
    (parseRhythmFromCode "s(\"bd sd\").slow(2)".data).bpm = JSNum.num 60 ∧
    (parseRhythmFromCode "s(\"bd sd\").fast(2)".data).bpm = JSNum.num 180 ∧
    (parseRhythmFromCode "s(\"bd sd\")".data).bpm = JSNum.num 120 := by
  have hpf : jsParseFloat "2".data = JSNum.num 2 := by
    simp +decide [jsParseFloat, isWsCh, isDigitCh, natOfDigits, lstartsWith]
  refine ⟨?_, ?_, ?_⟩
  · have h := (c6_bpm_modifiers "s(\"bd sd\").slow(2)".data "bd sd".data
      (by decide) (by decide)).2.1 "2".data 2 (by decide) (by decide) hpf (by norm_num)
    rw [h]
    norm_num [min_def, max_def]
  · have h := (c6_bpm_modifiers "s(\"bd sd\").fast(2)".data "bd sd".data
      (by decide) (by decide)).2.2 "2".data 2 (by decide) (by decide) (by decide) hpf
    rw [h]
    norm_num [min_def, max_def]
  · exact (c6_bpm_modifiers "s(\"bd sd\")".data "bd sd".data
      (by decide) (by decide)).1 (by decide) (by decide)

/-- The wrap-around distance of getBeatIntensity for a single beat:
min(|p - b|, |p - (b+1)|, |p - (b-1)|). -/
def cycDist (p b : ℚ) : ℚ := min |p - b| (min |p - (b + 1)| |p - (b - 1)|)

/-- Minimum of a nonempty rational list, folded as Math.min does. -/
def listMinQ : List ℚ → ℚ
  | [] => 0
  | x :: xs => xs.foldl min x

/-- Minimum wrap-around distance from the phase position to any beat. -/
def minCycDist (p : ℚ) (bs : List ℚ) : ℚ := listMinQ (bs.map (cycDist p))

/-- getBeatIntensity on finite inputs equals the closed formula
max(0, 1 - 2*(d/0.15)^2) with d the minimum wrap-around distance. -/
theorem getBeatIntensity_num (p b : ℚ) (tl : List ℚ) :
    getBeatIntensity (JSNum.num p) ((b :: tl).map JSNum.num) =
      JSNum.num (max 0 (1 - 2 * (minCycDist p (b :: tl) / (3/20)) ^ 2)) := by
  have hmap : ((b :: tl).map JSNum.num).map
      (fun beat => JSNum.min2 ((JSNum.num p).sub beat).abs
        (JSNum.min2 ((JSNum.num p).sub (beat.add (JSNum.num 1))).abs
          ((JSNum.num p).sub (beat.sub (JSNum.num 1))).abs)) =
      (cycDist p b :: tl.map (cycDist p)).map JSNum.num := by
    rw [List.map_map]
    show _ = ((b :: tl).map (cycDist p)).map JSNum.num
    rw [List.map_map]
    refine List.map_congr_left ?_
    intro x _
    simp [cycDist]
  unfold getBeatIntensity
  rw [if_neg (by simp), hmap, JSNum.minList_map_num]
  have hmin : (tl.map (cycDist p)).foldl min (cycDist p b) = minCycDist p (b :: tl) := rfl
  rw [hmin]
  by_cases hd : (3/20 : ℚ) < minCycDist p (b :: tl)
  · rw [if_pos (by simp [hd])]
    refine congrArg JSNum.num ?_
    have hw : (0 : ℚ) < 3/20 := by norm_num
    have h1 : 1 < minCycDist p (b :: tl) / (3/20) := (one_lt_div hw).mpr hd
    have hle : 1 - 2 * (minCycDist p (b :: tl) / (3/20)) ^ 2 ≤ 0 := by nlinarith
    rw [max_eq_left hle]
  · rw [if_neg (by simp [hd])]
    rw [JSNum.div_num_num _ (3/20) (by norm_num)]
    simp only [JSNum.mul_num_num, JSNum.sub_num_num, JSNum.max2_num_num]
    refine congrArg JSNum.num (congrArg (max 0) ?_)
    ring

/-- C9: for every finite phase position and nonempty finite beat list,
getBeatIntensity equals max(0, 1 - 2*(d/0.15)^2) for the minimum wrap-around
distance d; the value is a rational in [0,1]; and it is exactly 0 whenever d
exceeds the 0.15 window. -/
theorem c9_beat_intensity_formula :
    ∀ (p : ℚ) (bs : List ℚ), bs ≠ [] →
      getBeatIntensity (JSNum.num p) (bs.map JSNum.num) =
        JSNum.num (max 0 (1 - 2 * (minCycDist p bs / (3/20)) ^ 2)) ∧
      (∃ q : ℚ, getBeatIntensity (JSNum.num p) (bs.map JSNum.num) = JSNum.num q ∧
        0 ≤ q ∧ q ≤ 1) ∧
      (3/20 < minCycDist p bs →
        getBeatIntensity (JSNum.num p) (bs.map JSNum.num) = JSNum.num 0) := by
  intro p bs hne
  obtain ⟨b, tl, rfl⟩ := List.exists_cons_of_ne_nil hne
  have hval := getBeatIntensity_num p b tl
  refine ⟨hval, ⟨_, hval, le_max_left _ _, ?_⟩, ?_⟩
  · have hsq : (0 : ℚ) ≤ 2 * (minCycDist p (b :: tl) / (3/20)) ^ 2 := by positivity
    exact max_le (by norm_num) (by linarith)
  · intro hd
    rw [hval]
    refine congrArg JSNum.num ?_
    have hw : (0 : ℚ) < 3/20 := by norm_num
    have h1 : 1 < minCycDist p (b :: tl) / (3/20) := (one_lt_div hw).mpr hd
    have hle : 1 - 2 * (minCycDist p (b :: tl) / (3/20)) ^ 2 ≤ 0 := by nlinarith
    rw [max_eq_left hle]

/-- C9 witness: phase 1/2 against the single beat 0 has wrap distance 1/2,
outside the window, so the intensity is exactly 0. -/
theorem c9_beat_intensity_formula_witness :
    getBeatIntensity (JSNum.num (1/2)) ([(0 : ℚ)].map JSNum.num) = JSNum.num 0 :=
  (c9_beat_intensity_formula (1/2) [0] (by simp)).2.2
    (by norm_num [minCycDist, listMinQ, cycDist, abs, max_def, min_def])

/-- Unfolding of sumNorm on a cons cell. -/
theorem sumNorm_cons (v : ℕ) (t : List ℕ) :
    sumNorm (v :: t) = (v : ℚ) / 255 + sumNorm t := by
  simp [sumNorm]

/-- Normalized bin sums are nonnegative. -/
theorem sumNorm_nonneg : ∀ l : List ℕ, 0 ≤ sumNorm l := by
  intro l
  induction l with
  | nil => simp [sumNorm]
  | cons v t ih =>
    rw [sumNorm_cons]
    have : (0 : ℚ) ≤ (v : ℚ) / 255 := by positivity
    linarith

/-- Normalized bin sums are at most the bin count when bins are bytes. -/
theorem sumNorm_le_length : ∀ l : List ℕ, (∀ v ∈ l, v ≤ 255) → sumNorm l ≤ l.length := by
  intro l
  induction l with
  | nil => simp [sumNorm]
  | cons v t ih =>
    intro h
    have hv : (v : ℚ) ≤ 255 := by exact_mod_cast h v (List.mem_cons_self _ _)
    have ht := ih (fun x hx => h x (List.mem_cons_of_mem _ hx))
    rw [sumNorm_cons, List.length_cons]
    have h1 : (v : ℚ) / 255 ≤ 1 := by
      rw [div_le_one (by norm_num)]
      exact hv
    push_cast
    linarith

/-- Normalized bin sum of an all-zero buffer. -/
theorem sumNorm_zero : ∀ l : List ℕ, (∀ v ∈ l, v = 0) → sumNorm l = 0 := by
  intro l
  induction l with
  | nil => simp [sumNorm]
  | cons v t ih =>
    intro h
    have hv := h v (List.mem_cons_self _ _)
    have ht := ih (fun x hx => h x (List.mem_cons_of_mem _ hx))
    rw [sumNorm_cons, ht, hv]
    norm_num

/-- Normalized bin sum of an all-255 buffer is the bin count. -/
theorem sumNorm_full : ∀ l : List ℕ, (∀ v ∈ l, v = 255) → sumNorm l = l.length := by
  intro l
  induction l with
  | nil => simp [sumNorm]
  | cons v t ih =>
    intro h
    have hv := h v (List.mem_cons_self _ _)
    have ht := ih (fun x hx => h x (List.mem_cons_of_mem _ hx))
    rw [sumNorm_cons, ht, hv, List.length_cons]
    push_cast
    ring

/-- getFrequencyData on a connected analyser with at least 10 bins, with
every JavaScript division realized as a division of rationals (all divisors
are then nonzero). -/
theorem getFrequencyData_eq (data : List ℕ) (h10 : 10 ≤ data.length) :
    getFrequencyData true data =
      { bass := JSNum.num (min 1
          (sumNorm (data.take (data.length / 10)) / ((data.length / 10 : ℕ) : ℚ) * 2)),
        mid := JSNum.num (min 1
          (sumNorm ((data.take (data.length * 6 / 10)).drop (data.length / 10)) /
            (((data.length * 6 / 10 : ℕ) : ℚ) - ((data.length / 10 : ℕ) : ℚ)))),
        treble := JSNum.num (min 1
          (sumNorm (data.drop (data.length * 6 / 10)) /
            ((data.length : ℚ) - ((data.length * 6 / 10 : ℕ) : ℚ)))),
        overall := JSNum.num (min 1 (sumNorm data / (data.length : ℚ))) } := by
  have hbeQ : ((data.length / 10 : ℕ) : ℚ) ≠ 0 := Nat.cast_ne_zero.mpr (by omega)
  have hbm : data.length / 10 < data.length * 6 / 10 := by omega
  have hmn : data.length * 6 / 10 < data.length := by omega
  have hmidQ : ((data.length * 6 / 10 : ℕ) : ℚ) - ((data.length / 10 : ℕ) : ℚ) ≠ 0 := by
    have h : ((data.length / 10 : ℕ) : ℚ) < ((data.length * 6 / 10 : ℕ) : ℚ) := by
      exact_mod_cast hbm
    linarith
  have htreQ : ((data.length : ℕ) : ℚ) - ((data.length * 6 / 10 : ℕ) : ℚ) ≠ 0 := by
    have h : ((data.length * 6 / 10 : ℕ) : ℚ) < ((data.length : ℕ) : ℚ) := by
      exact_mod_cast hmn
    linarith
  have hnQ : ((data.length : ℕ) : ℚ) ≠ 0 := Nat.cast_ne_zero.mpr (by omega)
  simp only [getFrequencyData, Bool.not_true, Bool.false_eq_true, if_false]
  rw [JSNum.div_num_num _ _ hbeQ, JSNum.div_num_num _ _ hmidQ, JSNum.div_num_num _ _ htreQ,
    JSNum.div_num_num _ _ hnQ, JSNum.mul_num_num, JSNum.min2_num_num, JSNum.min2_num_num,
    JSNum.min2_num_num, JSNum.min2_num_num]

/-- C7: over a connected analyser with at least 1024 byte-valued bins, all
four outputs are rationals in [0,1]; the all-zero buffer yields all-zero
bands and the all-255 buffer yields all-one bands (the doubled bass average
clamps at 1). -/
theorem c7_frequency_bands :
    ∀ data : List ℕ, 1024 ≤ data.length → (∀ v ∈ data, v ≤ 255) →
      (∃ bq mq tq oq : ℚ,
        getFrequencyData true data =
          { bass := JSNum.num bq, mid := JSNum.num mq, treble := JSNum.num tq,
            overall := JSNum.num oq } ∧
        0 ≤ bq ∧ bq ≤ 1 ∧ 0 ≤ mq ∧ mq ≤ 1 ∧ 0 ≤ tq ∧ tq ≤ 1 ∧ 0 ≤ oq ∧ oq ≤ 1) ∧
      ((∀ v ∈ data, v = 0) →
        getFrequencyData true data =
          { bass := JSNum.num 0, mid := JSNum.num 0, treble := JSNum.num 0,
            overall := JSNum.num 0 }) ∧
      ((∀ v ∈ data, v = 255) →
        getFrequencyData true data =
          { bass := JSNum.num 1, mid := JSNum.num 1, treble := JSNum.num 1,
            overall := JSNum.num 1 }) := by
  intro data hlen hbytes
  have h10 : 10 ≤ data.length := by omega
  have heq := getFrequencyData_eq data h10
  have hbeQ : (0 : ℚ) < ((data.length / 10 : ℕ) : ℚ) := by
    exact_mod_cast Nat.pos_of_ne_zero (by omega)
  have hbm : data.length / 10 < data.length * 6 / 10 := by omega
  have hmn : data.length * 6 / 10 < data.length := by omega
  have hmidQ : (0 : ℚ) < ((data.length * 6 / 10 : ℕ) : ℚ) - ((data.length / 10 : ℕ) : ℚ) := by
    have h : ((data.length / 10 : ℕ) : ℚ) < ((data.length * 6 / 10 : ℕ) : ℚ) := by
      exact_mod_cast hbm
    linarith
  have htreQ : (0 : ℚ) < ((data.length : ℕ) : ℚ) - ((data.length * 6 / 10 : ℕ) : ℚ) := by
    have h : ((data.length * 6 / 10 : ℕ) : ℚ) < ((data.length : ℕ) : ℚ) := by
      exact_mod_cast hmn
    linarith
  have hnQ : (0 : ℚ) < ((data.length : ℕ) : ℚ) := by
    exact_mod_cast Nat.pos_of_ne_zero (by omega)
  refine ⟨⟨_, _, _, _, heq, ?_, min_le_left _ _, ?_, min_le_left _ _, ?_, min_le_left _ _,
      ?_, min_le_left _ _⟩, ?_, ?_⟩
  · exact le_min (by norm_num)
      (mul_nonneg (div_nonneg (sumNorm_nonneg _) (le_of_lt hbeQ)) (by norm_num))
  · exact le_min (by norm_num) (div_nonneg (sumNorm_nonneg _) (le_of_lt hmidQ))
  · exact le_min (by norm_num) (div_nonneg (sumNorm_nonneg _) (le_of_lt htreQ))
  · exact le_min (by norm_num) (div_nonneg (sumNorm_nonneg _) (le_of_lt hnQ))
  · intro hz
    rw [heq]
    have hz1 : sumNorm (data.take (data.length / 10)) = 0 :=
      sumNorm_zero _ (fun v hv => hz v (List.take_subset _ _ hv))
    have hz2 : sumNorm ((data.take (data.length * 6 / 10)).drop (data.length / 10)) = 0 :=
      sumNorm_zero _ (fun v hv => hz v (List.take_subset _ _ (List.drop_subset _ _ hv)))
    have hz3 : sumNorm (data.drop (data.length * 6 / 10)) = 0 :=
      sumNorm_zero _ (fun v hv => hz v (List.drop_subset _ _ hv))
    have hz4 : sumNorm data = 0 := sumNorm_zero _ hz
    rw [hz1, hz2, hz3, hz4]
    norm_num [min_def]
  · intro hf
    rw [heq]
    have hf1 : sumNorm (data.take (data.length / 10)) = ((data.length / 10 : ℕ) : ℚ) := by
      rw [sumNorm_full _ (fun v hv => hf v (List.take_subset _ _ hv))]
      rw [List.length_take]
      congr 1
      omega
    have hf2 : sumNorm ((data.take (data.length * 6 / 10)).drop (data.length / 10)) =
        ((data.length * 6 / 10 - data.length / 10 : ℕ) : ℚ) := by
      rw [sumNorm_full _ (fun v hv => hf v (List.take_subset _ _ (List.drop_subset _ _ hv)))]
      rw [List.length_drop, List.length_take]
      congr 1
      omega
    have hf3 : sumNorm (data.drop (data.length * 6 / 10)) =
        ((data.length - data.length * 6 / 10 : ℕ) : ℚ) := by
      rw [sumNorm_full _ (fun v hv => hf v (List.drop_subset _ _ hv))]
      rw [List.length_drop]
    have hf4 : sumNorm data = (data.length : ℚ) := sumNorm_full _ hf
    rw [hf1, hf2, hf3, hf4]
    rw [div_self (ne_of_gt hbeQ)]
    have e2 : ((data.length * 6 / 10 - data.length / 10 : ℕ) : ℚ) =
        ((data.length * 6 / 10 : ℕ) : ℚ) - ((data.length / 10 : ℕ) : ℚ) := by
      push_cast [Nat.cast_sub (le_of_lt hbm)]
      ring
    have e3 : ((data.length - data.length * 6 / 10 : ℕ) : ℚ) =
        ((data.length : ℕ) : ℚ) - ((data.length * 6 / 10 : ℕ) : ℚ) := by
      push_cast [Nat.cast_sub (le_of_lt hmn)]
      ring
    rw [e2, e3, div_self (ne_of_gt hmidQ), div_self (ne_of_gt htreQ),
      div_self (ne_of_gt hnQ)]
    norm_num [min_def]

/-- C7 witness: a 1024-bin all-zero buffer yields the zero bands and a
1024-bin all-255 buffer yields the all-one bands. -/
theorem c7_frequency_bands_witness :
    getFrequencyData true (List.replicate 1024 0) =
      { bass := JSNum.num 0, mid := JSNum.num 0, treble := JSNum.num 0,
        overall := JSNum.num 0 } ∧
    getFrequencyData true (List.replicate 1024 255) =
      { bass := JSNum.num 1, mid := JSNum.num 1, treble := JSNum.num 1,
        overall := JSNum.num 1 } :=
  ⟨(c7_frequency_bands (List.replicate 1024 0)
      (by rw [List.length_replicate])
      (fun v hv => by rw [List.eq_of_mem_replicate hv]; norm_num)).2.1
      (fun v hv => List.eq_of_mem_replicate hv),
   (c7_frequency_bands (List.replicate 1024 255)
      (by rw [List.length_replicate])
      (fun v hv => by rw [List.eq_of_mem_replicate hv])).2.2
      (fun v hv => List.eq_of_mem_replicate hv)⟩

/-- Math.max with NaN on the left is NaN. -/
theorem max2_nan_left (a : JSNum) : JSNum.max2 JSNum.nan a = JSNum.nan := by
  cases a <;> rfl

/-- Math.max with NaN on the right is NaN. -/
theorem max2_nan_right (a : JSNum) : JSNum.max2 a JSNum.nan = JSNum.nan := by
  cases a <;> rfl

/-- A Math.max fold started from NaN stays NaN. -/
theorem foldl_max2_nan : ∀ l : List JSNum, l.foldl JSNum.max2 JSNum.nan = JSNum.nan := by
  intro l
  induction l with
  | nil => rfl
  | cons b t ih => simp [List.foldl_cons, max2_nan_left, ih]

/-- A Math.max fold started from Infinity is Infinity or NaN. -/
theorem foldl_max2_inf : ∀ l : List JSNum,
    l.foldl JSNum.max2 JSNum.inf = JSNum.inf ∨ l.foldl JSNum.max2 JSNum.inf = JSNum.nan := by
  intro l
  induction l with
  | nil => exact Or.inl rfl
  | cons b t ih =>
    cases b with
    | nan =>
      right
      simp [List.foldl_cons, max2_nan_right, foldl_max2_nan]
    | num q => simpa [List.foldl_cons, JSNum.max2, JSNum.lt] using ih
    | inf => simpa [List.foldl_cons, JSNum.max2, JSNum.lt] using ih
    | ninf => simpa [List.foldl_cons, JSNum.max2, JSNum.lt] using ih

/-- When a Math.max fold returns a finite value, the accumulator and every
finite member are bounded by it. -/
theorem foldl_max2_num_bound :
    ∀ (l : List JSNum) (a : JSNum) (m : ℚ),
      l.foldl JSNum.max2 a = JSNum.num m →
      (∀ qa : ℚ, a = JSNum.num qa → qa ≤ m) ∧
      (∀ v ∈ l, ∀ qv : ℚ, v = JSNum.num qv → qv ≤ m) := by
  intro l
  induction l with
  | nil =>
    intro a m h
    rw [List.foldl_nil] at h
    refine ⟨?_, by intro v hv; cases hv⟩
    intro qa ha
    rw [ha] at h
    have : qa = m := by injection h
    exact le_of_eq this
  | cons b t ih =>
    intro a m h
    rw [List.foldl_cons] at h
    have ihm := ih (JSNum.max2 a b) m h
    constructor
    · intro qa ha
      subst ha
      cases b with
      | nan =>
        rw [max2_nan_right, foldl_max2_nan] at h
        cases h
      | num qb =>
        have hb : max qa qb ≤ m := ihm.1 (max qa qb) (by rw [JSNum.max2_num_num])
        exact le_trans (le_max_left _ _) hb
      | inf =>
        have hacc : JSNum.max2 (JSNum.num qa) JSNum.inf = JSNum.inf := by
          simp [JSNum.max2, JSNum.lt]
        rw [hacc] at h
        rcases foldl_max2_inf t with h2 | h2 <;> rw [h2] at h <;> cases h
      | ninf =>
        have hacc : JSNum.max2 (JSNum.num qa) JSNum.ninf = JSNum.num qa := by
          simp [JSNum.max2, JSNum.lt]
        rw [hacc] at h
        exact (ih _ m h).1 qa rfl
    · intro v hv qv hveq
      rcases List.mem_cons.mp hv with rfl | hvt
      · subst hveq
        cases a with
        | nan =>
          rw [max2_nan_left, foldl_max2_nan] at h
          cases h
        | num qa =>
          have hb : max qa qv ≤ m := ihm.1 (max qa qv) (by rw [JSNum.max2_num_num])
          exact le_trans (le_max_right _ _) hb
        | inf =>
          have hacc : JSNum.max2 JSNum.inf (JSNum.num qv) = JSNum.inf := by
            simp [JSNum.max2, JSNum.lt]
          rw [hacc] at h
          rcases foldl_max2_inf t with h2 | h2 <;> rw [h2] at h <;> cases h
        | ninf =>
          have hacc : JSNum.max2 JSNum.ninf (JSNum.num qv) = JSNum.num qv := by
            simp [JSNum.max2, JSNum.lt]
          rw [hacc] at h
          exact (ih _ m h).1 qv rfl
      · exact ihm.2 v hvt qv hveq

/-- Every finite member of a list whose Math.max spread is the finite value m
is at most m. -/
theorem maxList_num_bound (l : List JSNum) (m : ℚ)
    (h : JSNum.maxList l = JSNum.num m) :
    ∀ v ∈ l, ∀ qv : ℚ, v = JSNum.num qv → qv ≤ m := by
  cases l with
  | nil => cases h
  | cons v0 vs =>
    intro v hv qv hveq
    have hb := foldl_max2_num_bound vs v0 m h
    rcases List.mem_cons.mp hv with rfl | hvt
    · exact hb.1 qv hveq
    · exact hb.2 v hvt qv hveq

/-- The .n-branch side condition on a selected patternCode: the parsed
divisor is a finite value at least 1, every numeric token parses to a
nonnegative finite value, and their maximum is positive; true when no
.n literal is found. -/
def seqCondOf (patternCode : List Char) : Bool :=
  match scanLiteral ".n(".data patternCode with
  | none => true
  | some nPattern =>
    let ps1 := stripAngles nPattern
    let pd : List Char × JSNum :=
      if containsSub "/".data ps1 then
        let parts := slashParts ps1
        (parts.1, jsOr1 (jsParseFloat parts.2))
      else (ps1, JSNum.num 1)
    let values := (extractNumRuns pd.1).map jsParseFloat
    (match pd.2 with
     | JSNum.num d => decide (1 ≤ d)
     | _ => false) &&
    values.all (fun v => match v with
      | JSNum.num q => decide (0 ≤ q)
      | _ => false) &&
    (match JSNum.maxList values with
     | JSNum.num m => decide (0 < m)
     | _ => false)

/-- Side condition under which the .n-literal branch of parseScopePattern
stays within [0,1]; branches that never reach the .n normalization satisfy
it vacuously. -/
def scopeSeqCond (code : List Char) : Bool :=
  match scopePatternCode (containsSub "._scope()".data code) code with
  | none => true
  | some patternCode => seqCondOf patternCode

/-- A true all-check on the sequence values yields finite nonnegative
rationals. -/
theorem all_num_nonneg {values : List JSNum}
    (h : (values.all (fun v => match v with
      | JSNum.num q => decide (0 ≤ q)
      | _ => false)) = true) :
    ∀ v ∈ values, ∃ qv : ℚ, v = JSNum.num qv ∧ 0 ≤ qv := by
  intro v hv
  have hvc := List.all_eq_true.mp h v hv
  cases v with
  | num q =>
    refine ⟨q, rfl, ?_⟩
    rwa [decide_eq_true_eq] at hvc
  | nan => cases hvc
  | inf => cases hvc
  | ninf => cases hvc

/-- Core of the C3 amendment: the normalized .n sequence stays in [0,1] when
the divisor is at least 1 and the values are nonnegative finite with a
positive finite maximum. -/
theorem seq_map_bounds (values : List JSNum) (d m : ℚ)
    (hd : 1 ≤ d)
    (hm : JSNum.maxList values = JSNum.num m)
    (hm0 : 0 < m)
    (hall : ∀ v ∈ values, ∃ qv : ℚ, v = JSNum.num qv ∧ 0 ≤ qv) :
    ∀ x ∈ values.map (fun v => (v.div (JSNum.num m)).div (JSNum.num d)),
      ∃ q : ℚ, x = JSNum.num q ∧ 0 ≤ q ∧ q ≤ 1 := by
  intro x hx
  obtain ⟨v, hv, rfl⟩ := List.mem_map.mp hx
  obtain ⟨qv, rfl, hqv⟩ := hall v hv
  have hle : qv ≤ m := maxList_num_bound _ m hm _ hv qv rfl
  have hd0 : (0 : ℚ) < d := lt_of_lt_of_le one_pos hd
  rw [JSNum.div_num_num _ _ (ne_of_gt hm0), JSNum.div_num_num _ _ (ne_of_gt hd0)]
  refine ⟨qv / m / d, rfl, ?_, ?_⟩
  · exact div_nonneg (div_nonneg hqv (le_of_lt hm0)) (le_of_lt hd0)
  · have h1 : qv / m ≤ 1 := by
      rw [div_le_one hm0]
      exact hle
    have h2 : qv / m / d ≤ qv / m :=
      div_le_self (div_nonneg hqv (le_of_lt hm0)) hd
    linarith

/-- C3 amended: every element of a returned scope sequence is a rational in
[0,1] provided that, when the .n-literal normalization applies, the parsed
divisor is at least 1 and the numeric tokens parse to nonnegative finite
values with positive maximum; the non-.n branches satisfy this
unconditionally. -/
theorem c3_scope_sequence_amended :
    ∀ (code : List Char) (p : ScopePattern),
      parseScopePattern code = some p →
      scopeSeqCond code = true →
      ∀ x ∈ p.sequence, ∃ q : ℚ, x = JSNum.num q ∧ 0 ≤ q ∧ q ≤ 1 := by
  intro code p hp hcond
  unfold parseScopePattern at hp
  by_cases hguard : (code.isEmpty || (!containsSub "._scope()".data code &&
      !(containsSub ".n(".data code &&
        (containsSub "note(".data code || containsSub "s(".data code)))) = true
  · rw [if_pos hguard] at hp
    cases hp
  · rw [if_neg hguard] at hp
    cases hpc : scopePatternCode (containsSub "._scope()".data code) code with
    | none =>
      rw [hpc] at hp
      cases hp
    | some pc =>
      rw [hpc, Option.map_some'] at hp
      have hcond2 : seqCondOf pc = true := by
        unfold scopeSeqCond at hcond
        rw [hpc] at hcond
        exact hcond
      have hp2 : scopeFromPatternCode pc = p := by
        injection hp
      subst hp2
      unfold scopeFromPatternCode
      unfold seqCondOf at hcond2
      cases hn : scanLiteral ".n(".data pc with
      | none =>
        simp only [hn]
        cases hnote : scanLiteral "note(".data pc with
        | none =>
          simp only [hnote]
          intro x hx
          simp only [List.mem_cons, List.not_mem_nil, or_false] at hx
          rcases hx with rfl | rfl | rfl | rfl
          · exact ⟨0, rfl, by norm_num, by norm_num⟩
          · exact ⟨1/4, rfl, by norm_num, by norm_num⟩
          · exact ⟨1/2, rfl, by norm_num, by norm_num⟩
          · exact ⟨3/4, rfl, by norm_num, by norm_num⟩
        | some notePattern =>
          simp only [hnote]
          intro x hx
          simp only [List.mem_map, List.mem_range] at hx
          obtain ⟨i, hi, rfl⟩ := hx
          have hlen : 0 < (noteGroupsOf notePattern).length :=
            lt_of_le_of_lt (Nat.zero_le _) hi
          refine ⟨_, rfl, by positivity, ?_⟩
          rw [div_le_one (by exact_mod_cast hlen)]
          exact_mod_cast le_of_lt hi
      | some nPattern =>
        rw [hn] at hcond2
        simp only [hn]
        simp only [Bool.and_eq_true] at hcond2
        obtain ⟨⟨hdiv, hall⟩, hmax⟩ := hcond2
        by_cases hslash : containsSub "/".data (stripAngles nPattern) = true
        · simp only [hslash, eq_self_iff_true, if_true] at hdiv hall hmax ⊢
          cases hd2 : jsOr1 (jsParseFloat (slashParts (stripAngles nPattern)).2) with
          | num d =>
            rw [hd2] at hdiv
            rw [decide_eq_true_eq] at hdiv
            cases hm : JSNum.maxList
                ((extractNumRuns (slashParts (stripAngles nPattern)).1).map jsParseFloat) with
            | num m =>
              rw [hm] at hmax
              rw [decide_eq_true_eq] at hmax
              by_cases hemp : (extractNumRuns (slashParts (stripAngles nPattern)).1).isEmpty = true
              · simp only [hemp, eq_self_iff_true, if_true]
                intro x hx
                cases hx
              · simp only [hemp, if_false, Bool.false_eq_true]
                exact seq_map_bounds _ d m hdiv hm hmax (all_num_nonneg hall)
            | nan => rw [hm] at hmax; cases hmax
            | inf => rw [hm] at hmax; cases hmax
            | ninf => rw [hm] at hmax; cases hmax
          | nan => rw [hd2] at hdiv; cases hdiv
          | inf => rw [hd2] at hdiv; cases hdiv
          | ninf => rw [hd2] at hdiv; cases hdiv
        · simp only [hslash, Bool.false_eq_true, if_false] at hdiv hall hmax ⊢
          rw [decide_eq_true_eq] at hdiv
          cases hm : JSNum.maxList
              ((extractNumRuns (stripAngles nPattern)).map jsParseFloat) with
          | num m =>
            rw [hm] at hmax
            rw [decide_eq_true_eq] at hmax
            by_cases hemp : (extractNumRuns (stripAngles nPattern)).isEmpty = true
            · simp only [hemp, eq_self_iff_true, if_true]
              intro x hx
              cases hx
            · simp only [hemp, if_false, Bool.false_eq_true]
              exact seq_map_bounds _ 1 m hdiv hm hmax (all_num_nonneg hall)
          | nan => rw [hm] at hmax; cases hmax
          | inf => rw [hm] at hmax; cases hmax
          | ninf => rw [hm] at hmax; cases hmax

/-- C3 counterexample: the source text s("bd").n("1 2/0.5")._scope() has a
divisor of 0.5, so parseScopePattern returns the sequence [1, 2] — its second
element is 2, which is not in [0,1]. -/
theorem c3_scope_sequence_counterexample :
    parseScopePattern "s(\"bd\").n(\"1 2/0.5\")._scope()".data =
      some { sequence := [JSNum.num 1, JSNum.num 2], speed := JSNum.num 1,
             patternLength := 2 } ∧
    JSNum.num 2 ∈ [JSNum.num (1 : ℚ), JSNum.num 2] ∧ ¬ (2 : ℚ) ≤ 1 := by
  refine ⟨?_, by norm_num, by norm_num⟩
  norm_num +decide [parseScopePattern, scopePatternCode, scopeFromPatternCode, scanLiteral,
    quotedArg, containsSub, lstartsWith, prefixBeforeFirst, jsTrim, isWsCh, isQuoteCh,
    stripAngles, slashParts, extractNumRuns, extractNumRunsAux, isNumCh, isDigitCh,
    jsParseFloat, natOfDigits, jsOr1, JSNum.maxList, JSNum.max2, JSNum.lt, JSNum.div,
    scanParenNum, toNat_c0, toNat_c1, toNat_c2, toNat_c5]

/-- C3 amended witness: on s("bd").n("1 2 4")._scope() the divisor is 1 and
the tokens are 1, 2, 4, so the condition holds and the element 1/4 of the
returned sequence is a rational in [0,1]. -/
theorem c3_scope_sequence_amended_witness :
    ∃ q : ℚ, JSNum.num (1/4 : ℚ) = JSNum.num q ∧ 0 ≤ q ∧ q ≤ 1 :=
  c3_scope_sequence_amended "s(\"bd\").n(\"1 2 4\")._scope()".data
    { sequence := [JSNum.num (1/4), JSNum.num (1/2), JSNum.num 1], speed := JSNum.num 1,
      patternLength := 3 }
    (by norm_num +decide [parseScopePattern, scopePatternCode, scopeFromPatternCode,
      scanLiteral, quotedArg, containsSub, lstartsWith, prefixBeforeFirst, jsTrim, isWsCh,
      isQuoteCh, stripAngles, slashParts, extractNumRuns, extractNumRunsAux, isNumCh,
      isDigitCh, jsParseFloat, natOfDigits, jsOr1, JSNum.maxList, JSNum.max2, JSNum.lt,
      JSNum.div, scanParenNum, toNat_c1, toNat_c2, toNat_c4])
    (by norm_num +decide [scopeSeqCond, seqCondOf, scopePatternCode, scopeFromPatternCode,
      scanLiteral, quotedArg, containsSub, lstartsWith, prefixBeforeFirst, jsTrim, isWsCh,
      isQuoteCh, stripAngles, slashParts, extractNumRuns, extractNumRunsAux, isNumCh,
      isDigitCh, jsParseFloat, natOfDigits, jsOr1, JSNum.maxList, JSNum.max2, JSNum.lt,
      JSNum.div, scanParenNum, toNat_c1, toNat_c2, toNat_c4])
    (JSNum.num (1/4)) (by norm_num)

/-- C10: when the code carries the explicit ._scope() marker and the trimmed
prefix before the first marker contains neither a quoted .n literal nor a
quoted note literal, parseScopePattern still returns a pattern — with the
default sequence [0, 0.25, 0.5, 0.75] and patternLength 4 — rather than
null. -/
theorem c10_scope_default_sequence :
    ∀ (code pre : List Char),
      containsSub "._scope()".data code = true →
      prefixBeforeFirst "._scope()".data code = some pre →
      scanLiteral ".n(".data (jsTrim pre) = none →
      scanLiteral "note(".data (jsTrim pre) = none →
      ∃ sp : ScopePattern, parseScopePattern code = some sp ∧
        sp.sequence = [JSNum.num 0, JSNum.num (1/4), JSNum.num (1/2), JSNum.num (3/4)] ∧
        sp.patternLength = 4 := by
  intro code pre hmarker hpre hn hnote
  have hne : code.isEmpty = false := by
    cases code with
    | nil => cases hmarker
    | cons c cs => rfl
  have hparse : parseScopePattern code = some (scopeFromPatternCode (jsTrim pre)) := by
    unfold parseScopePattern scopePatternCode
    rw [hmarker, hne, hpre]
    simp
  refine ⟨scopeFromPatternCode (jsTrim pre), hparse, ?_, ?_⟩
  · unfold scopeFromPatternCode
    simp only [hn, hnote]
  · unfold scopeFromPatternCode
    simp only [hn, hnote]

/-- C10 witness: s("bd")._scope() parses to the default scope sequence. -/
theorem c10_scope_default_sequence_witness :
    ∃ sp : ScopePattern, parseScopePattern "s(\"bd\")._scope()".data = some sp ∧
      sp.sequence = [JSNum.num 0, JSNum.num (1/4), JSNum.num (1/2), JSNum.num (3/4)] ∧
      sp.patternLength = 4 :=
  c10_scope_default_sequence _ "s(\"bd\")".data (by decide) (by decide) (by decide) (by decide)

end Braless
